import Mathlib

/-!
Shallow embedding of the BearBonesECS component-storage engine and scheduler
(src/include/bearBonesECS.hpp), together with theorems settling the
specification claims about it.  Machine sizes are modelled as Nat; the
std::unordered_map containers are modelled as association lists (insertion
ordered) or as functions Nat → Option Nat, as noted at each definition.
-/

namespace BBECS

/-- Association-list lookup, modelling std::unordered_map::find for Nat keys. -/
def assocLookup {α : Type} (l : List (Nat × α)) (k : Nat) : Option α :=
  match l with
  | [] => none
  | p :: rest => if p.1 = k then some p.2 else assocLookup rest k

namespace Sched

/-- ECS::System (bearBonesECS.hpp:122-125): the declared component-type
footprint of one registered system.  The callback plays no part in stage
placement and is omitted. -/
structure System where
  componentTypeIDs : List Nat
deriving DecidableEq

/-- ECS::haveCommonElements (bearBonesECS.hpp:1314-1324): nested scan over the
two id vectors, true as soon as one shared id is found. -/
def haveCommonElements (vec1 vec2 : List Nat) : Bool :=
  vec1.any fun id1 => vec2.any fun id2 => id1 == id2

/-- ECS::getParallelSystemComponentIDs (bearBonesECS.hpp:1293-1312): the
accumulated type footprint of one stage, built by pushing every system's
declared ids in order. -/
def getParallelSystemComponentIDs (stage : List System) : List Nat :=
  (stage.map System.componentTypeIDs).flatten

/-- The first-fit placement loop of ECS::addSystem (bearBonesECS.hpp:1190-1201):
scan the existing stages in order and push the system into the first stage
whose accumulated footprint shares no id with it; if none fits, open a new
stage at the end holding only this system. -/
def placeSystem : List (List System) → System → List (List System)
  | [], s => [[s]]
  | stage :: rest, s =>
    if haveCommonElements (getParallelSystemComponentIDs stage) s.componentTypeIDs
    then stage :: placeSystem rest s
    else (stage ++ [s]) :: rest

/-- ECS::addSystem (bearBonesECS.hpp:1172-1203): an empty declared list
defaults to every registered type; if any declared type is unregistered the
registration is a warning no-op; otherwise first-fit placement runs. -/
def addSystem (registered : List Nat) (batch : List (List System))
    (declared : List Nat) : List (List System) :=
  let ids := if declared.isEmpty then registered else declared
  if ids.all (fun t => registered.contains t) then placeSystem batch ⟨ids⟩ else batch

theorem haveCommonElements_eq_false_iff (v1 v2 : List Nat) :
    haveCommonElements v1 v2 = false ↔ ∀ x ∈ v1, x ∉ v2 := by
  unfold haveCommonElements
  simp [List.any_eq_true]

theorem haveCommonElements_false_symm {v1 v2 : List Nat}
    (h : haveCommonElements v1 v2 = false) : haveCommonElements v2 v1 = false := by
  rw [haveCommonElements_eq_false_iff] at h ⊢
  intro x hx hmem
  exact h x hmem hx

theorem mem_getParallelSystemComponentIDs {stage : List System} {s : System}
    (hs : s ∈ stage) {x : Nat} (hx : x ∈ s.componentTypeIDs) :
    x ∈ getParallelSystemComponentIDs stage := by
  unfold getParallelSystemComponentIDs
  simp only [List.mem_flatten, List.mem_map]
  exact ⟨s.componentTypeIDs, ⟨s, hs, rfl⟩, hx⟩

/-- Invariant of a batch: inside every stage, any two systems at distinct
positions have disjoint declared footprints. -/
def stagesPairwiseDisjoint (batch : List (List System)) : Prop :=
  ∀ stage ∈ batch,
    stage.Pairwise fun s1 s2 =>
      haveCommonElements s1.componentTypeIDs s2.componentTypeIDs = false

theorem placeSystem_pairwise {batch : List (List System)} {s : System}
    (h : stagesPairwiseDisjoint batch) :
    stagesPairwiseDisjoint (placeSystem batch s) := by
  induction batch with
  | nil =>
    intro stage hstage
    simp only [placeSystem, List.mem_singleton] at hstage
    subst hstage
    exact List.pairwise_singleton _ _
  | cons stage rest ih =>
    have hstage := h stage (by simp)
    have hrest : stagesPairwiseDisjoint rest := fun st hst => h st (by simp [hst])
    intro st hst
    unfold placeSystem at hst
    by_cases hc :
        haveCommonElements (getParallelSystemComponentIDs stage) s.componentTypeIDs = true
    · rw [if_pos hc] at hst
      rcases List.mem_cons.mp hst with h1 | h2
      · exact h1 ▸ hstage
      · exact ih hrest st h2
    · rw [if_neg hc] at hst
      rcases List.mem_cons.mp hst with h1 | h2
      · subst h1
        rw [List.pairwise_append]
        refine ⟨hstage, List.pairwise_singleton _ _, ?_⟩
        intro a ha b hb
        rw [List.mem_singleton] at hb
        subst b
        rw [haveCommonElements_eq_false_iff]
        intro x hxa hxs
        have hfalse : haveCommonElements (getParallelSystemComponentIDs stage)
            s.componentTypeIDs = false := by
          cases hcc : haveCommonElements (getParallelSystemComponentIDs stage)
              s.componentTypeIDs with
          | false => rfl
          | true => exact absurd hcc hc
        rw [haveCommonElements_eq_false_iff] at hfalse
        exact hfalse x (mem_getParallelSystemComponentIDs ha hxa) hxs
      · exact hrest st h2

theorem addSystem_pairwise {registered : List Nat} {batch : List (List System)}
    {declared : List Nat} (h : stagesPairwiseDisjoint batch) :
    stagesPairwiseDisjoint (addSystem registered batch declared) := by
  unfold addSystem
  set ids := if declared.isEmpty then registered else declared with hids
  by_cases hall : ids.all (fun t => registered.contains t) = true
  · rw [if_pos hall]
    exact placeSystem_pairwise h
  · rw [if_neg hall]
    exact h

theorem foldl_addSystem_pairwise (registered : List Nat) (regs : List (List Nat))
    (batch : List (List System)) (h : stagesPairwiseDisjoint batch) :
    stagesPairwiseDisjoint (regs.foldl (addSystem registered) batch) := by
  induction regs generalizing batch with
  | nil => exact h
  | cons d rest ih => exact ih _ (addSystem_pairwise h)

/-- The two assertions of claim C1: two systems with disjoint footprints
registered into a fresh batch share stage 0, and in any batch built by any
sequence of registrations two distinct systems placed in one stage never have
overlapping footprints. -/
def C1Conclusion (registered f1 f2 : List Nat) (regs : List (List Nat)) : Prop :=
  addSystem registered (addSystem registered [] f1) f2 = [[⟨f1⟩, ⟨f2⟩]] ∧
  ∀ stage ∈ regs.foldl (addSystem registered) [],
    ∀ s1 ∈ stage, ∀ s2 ∈ stage,
      haveCommonElements s1.componentTypeIDs s2.componentTypeIDs = true → s1 = s2

/-- Claim C1: with first-fit stage placement, two systems with disjoint
declared footprints registered into the same (fresh) batch land in the same
stage, and two systems whose footprints share a type id are never placed in
the same stage, for every registration sequence. -/
theorem scheduler_first_fit_c1 (registered f1 f2 : List Nat) (regs : List (List Nat))
    (hv1 : f1.all (fun t => registered.contains t) = true)
    (hv2 : f2.all (fun t => registered.contains t) = true)
    (hne1 : f1 ≠ []) (hne2 : f2 ≠ [])
    (hdisj : haveCommonElements f1 f2 = false) :
    C1Conclusion registered f1 f2 regs := by
  constructor
  · have he1 : f1.isEmpty = false := by
      cases f1 with
      | nil => exact absurd rfl hne1
      | cons a l => rfl
    have he2 : f2.isEmpty = false := by
      cases f2 with
      | nil => exact absurd rfl hne2
      | cons a l => rfl
    have step1 : addSystem registered [] f1 = [[⟨f1⟩]] := by
      unfold addSystem
      rw [he1]
      simp only [Bool.false_eq_true, if_false, hv1, if_true]
      rfl
    rw [step1]
    unfold addSystem
    rw [he2]
    simp only [Bool.false_eq_true, if_false, hv2, if_true]
    unfold placeSystem
    have hgp : getParallelSystemComponentIDs [⟨f1⟩] = f1 := by
      unfold getParallelSystemComponentIDs
      simp
    rw [hgp, hdisj]
    rfl
  · intro stage hstage s1 hs1 s2 hs2 hcommon
    have hpw := foldl_addSystem_pairwise registered regs []
      (fun st hst => absurd hst (List.not_mem_nil st)) stage hstage
    by_contra hne
    have hsymm : Symmetric (fun s1 s2 : System =>
        haveCommonElements s1.componentTypeIDs s2.componentTypeIDs = false) :=
      fun a b h => haveCommonElements_false_symm h
    have hfalse := hpw.forall hsymm hs1 hs2 hne
    rw [hfalse] at hcommon
    exact Bool.false_ne_true hcommon

/-- Witness for scheduler_first_fit_c1 at a concrete instance: footprints
[1] and [2] over the registered types [1, 2], and the registration
sequence [[1], [2], [1, 2]]. -/
theorem scheduler_first_fit_c1_witness :
    ([1] : List Nat).all (fun t => ([1, 2] : List Nat).contains t) = true ∧
    ([2] : List Nat).all (fun t => ([1, 2] : List Nat).contains t) = true ∧
    ([1] : List Nat) ≠ [] ∧ ([2] : List Nat) ≠ [] ∧
    haveCommonElements [1] [2] = false ∧
    C1Conclusion [1, 2] [1] [2] [[1], [2], [1, 2]] :=
  ⟨by decide, by decide, by decide, by decide, by decide,
    scheduler_first_fit_c1 [1, 2] [1] [2] [[1], [2], [1, 2]]
      (by decide) (by decide) (by decide) (by decide) (by decide)⟩

end Sched

namespace Arena

/-- ECS::refitComponentTypeStorage (bearBonesECS.hpp:1326-1336) called with the
growth factor field, which is 1.5f everywhere in the repository:
newCapacity = ceil(capacity * 1.5f).  1.5f and capacity * 1.5f are exact in
float for every capacity below 2^23, so the expression is modelled by the
exact rational ceiling of 3c/2, written (3c + 1) / 2 in Nat. -/
def growCapacity (c : Nat) : Nat := (3 * c + 1) / 2

/-- ECS::refitComponentTypeStorage called with factor 1.0f / 1.5f
(bearBonesECS.hpp:634): ceil(capacity * (1/1.5)).  The float 1.0f/1.5f is
(2^24 + 1) / (3 * 2^24), and for every capacity below 2^23 the float product
rounds to exactly 2c/3 scaled, so the expression is modelled by the exact
rational ceiling of 2c/3, written (2c + 2) / 3 in Nat. -/
def shrinkCapacity (c : Nat) : Nat := (2 * c + 2) / 3

/-- Size and capacity fields of one ECS::ComponentType arena
(bearBonesECS.hpp:99-104); the payload bytes play no part in claim C4. -/
structure ArenaState where
  size : Nat
  capacity : Nat
deriving DecidableEq

/-- addComponentType<T>(name, reserve) (bearBonesECS.hpp:796-821): a fresh
arena starts with size 0 and capacity = reserve. -/
def arenaInit (reserve : Nat) : ArenaState := ⟨0, reserve⟩

/-- The storage bookkeeping of a successful addComponent<T>
(bearBonesECS.hpp:557-565): grow when size >= capacity, then construct into
slot `size` and increment size. -/
def arenaAdd (a : ArenaState) : ArenaState :=
  let b := if a.size ≥ a.capacity then { a with capacity := growCapacity a.capacity } else a
  { b with size := b.size + 1 }

/-- The storage bookkeeping of a successful removeComponent<T>
(bearBonesECS.hpp:623-635).  An arena with size 0 has no owner that could
reach the swap-pop (the owns-check at line 611 fails first), so size = 0 is a
no-op here.  Otherwise decrement size and shrink when
size < capacity / growthFactor, which for the factor 1.5 is exactly
3 * size < 2 * capacity. -/
def arenaRemove (a : ArenaState) : ArenaState :=
  if a.size = 0 then a
  else
    let b := { a with size := a.size - 1 }
    if 3 * b.size < 2 * b.capacity then { b with capacity := shrinkCapacity b.capacity } else b

inductive ArenaOp where
  | add
  | remove
deriving DecidableEq

def arenaStep (a : ArenaState) : ArenaOp → ArenaState
  | .add => arenaAdd a
  | .remove => arenaRemove a

/-- A sequence of component add/remove operations on one registered type. -/
def arenaRun (ops : List ArenaOp) (a : ArenaState) : ArenaState :=
  ops.foldl arenaStep a

/-- Counterexample to claim C4 as stated: the claim quantifies over every
initial reserve R, but with R = 0 one insert triggers a growth step with
newCapacity = ceil(0 * 1.5) = 0 and then stores a slot anyway, leaving
size = 1 > capacity = 0. -/
theorem arena_capacity_c4_counterexample :
    ¬ ((arenaRun [ArenaOp.add] (arenaInit 0)).size ≤
        (arenaRun [ArenaOp.add] (arenaInit 0)).capacity) := by
  decide

/-- The invariant of the amended claim C4. -/
def C4Invariant (a : ArenaState) : Prop := a.size ≤ a.capacity ∧ 1 ≤ a.capacity

/-- The amended claim C4 for initial reserve R: the invariant holds after
every operation sequence, a full insert grows by ceil(capacity * 1.5), a
removal that leaves 3*size < 2*capacity shrinks to ceil(capacity / 1.5), and
a shrink never drops the capacity below the live size. -/
def C4Conclusion (R : Nat) : Prop :=
  (∀ ops : List ArenaOp, C4Invariant (arenaRun ops (arenaInit R))) ∧
  (∀ a : ArenaState, C4Invariant a →
    (a.size = a.capacity → (arenaAdd a).capacity = growCapacity a.capacity) ∧
    (0 < a.size → 3 * (a.size - 1) < 2 * a.capacity →
      (arenaRemove a).capacity = shrinkCapacity a.capacity) ∧
    (0 < a.size → (arenaRemove a).size ≤ (arenaRemove a).capacity))

theorem c4_invariant_add {a : ArenaState} (h : C4Invariant a) :
    C4Invariant (arenaAdd a) := by
  obtain ⟨h1, h2⟩ := h
  unfold arenaAdd growCapacity
  by_cases hc : a.size ≥ a.capacity
  · simp only [if_pos hc]
    constructor <;> simp <;> omega
  · simp only [if_neg hc]
    constructor <;> simp <;> omega

theorem c4_invariant_remove {a : ArenaState} (h : C4Invariant a) :
    C4Invariant (arenaRemove a) := by
  obtain ⟨h1, h2⟩ := h
  unfold arenaRemove shrinkCapacity
  by_cases hz : a.size = 0
  · simp only [if_pos hz]
    exact ⟨h1, h2⟩
  · simp only [if_neg hz]
    by_cases hs : 3 * (a.size - 1) < 2 * a.capacity
    · simp only [if_pos hs]
      constructor <;> simp <;> omega
    · simp only [if_neg hs]
      constructor <;> simp <;> omega

theorem c4_invariant_run (R : Nat) (hR : 1 ≤ R) (ops : List ArenaOp) :
    C4Invariant (arenaRun ops (arenaInit R)) := by
  have hinit : C4Invariant (arenaInit R) := ⟨Nat.zero_le R, hR⟩
  unfold arenaRun
  generalize arenaInit R = a at hinit
  induction ops generalizing a with
  | nil => exact hinit
  | cons op rest ih =>
    cases op with
    | add => exact ih _ (c4_invariant_add hinit)
    | remove => exact ih _ (c4_invariant_remove hinit)

/-- Amended claim C4: as claim C4 but for initial reserve R >= 1 (with R = 0
the growth step keeps capacity 0 and the insert breaks size <= capacity, see
the counterexample). -/
theorem arena_capacity_c4_amended (R : Nat) (hR : 1 ≤ R) : C4Conclusion R := by
  constructor
  · exact c4_invariant_run R hR
  · intro a ha
    obtain ⟨h1, h2⟩ := ha
    refine ⟨?_, ?_, ?_⟩
    · intro hfull
      simp [arenaAdd, hfull.ge]
    · intro hpos hs
      unfold arenaRemove
      rw [if_neg (by omega)]
      simp only [if_pos hs]
    · intro hpos
      have := c4_invariant_remove (a := a) ⟨h1, h2⟩
      exact this.1

/-- Witness for arena_capacity_c4_amended at R = 1. -/
theorem arena_capacity_c4_witness : 1 ≤ 1 ∧ C4Conclusion 1 :=
  ⟨by decide, arena_capacity_c4_amended 1 (by decide)⟩

end Arena

namespace Chunk

/-- The chunk-building loop of the multithreaded forEach
(bearBonesECS.hpp:954-968): `count` further chunks remain, `i` is the loop
counter, `start` the running start; each chunk ends at
start + chunkSize, plus one extra element while i < remainder. -/
def makeChunks (chunkSize remainder : Nat) : Nat → Nat → Nat → List (Nat × Nat)
  | 0, _, _ => []
  | count + 1, i, start =>
    let stop := start + chunkSize + (if i < remainder then 1 else 0)
    (start, stop) :: makeChunks chunkSize remainder count (i + 1) stop

/-- The chunking of forEach<T> (bearBonesECS.hpp:939-968): the requested
threadCount is clamped to min(threadCount, totalSize), and
chunkSize = totalSize / threadCount, remainder = totalSize % threadCount are
computed with the clamped count. -/
def forEachChunks (totalSize threadCount : Nat) : List (Nat × Nat) :=
  let tc := min threadCount totalSize
  makeChunks (totalSize / tc) (totalSize % tc) tc 0 0

/-- The indices a worker with chunk (start, stop) visits: j = start..stop-1
(bearBonesECS.hpp:961-965). -/
def chunkIndices (p : Nat × Nat) : List Nat := List.range' p.1 (p.2 - p.1)

/-- Total number of indices handed to the chunks numbered i, i+1, ..,
i+count-1. -/
def chunkTotal (chunkSize remainder : Nat) : Nat → Nat → Nat
  | 0, _ => 0
  | count + 1, i =>
    (chunkSize + (if i < remainder then 1 else 0)) + chunkTotal chunkSize remainder count (i + 1)

theorem chunkTotal_eq (chunkSize remainder : Nat) (count i : Nat) :
    chunkTotal chunkSize remainder count i =
      count * chunkSize + (min remainder (i + count) - min remainder i) := by
  induction count generalizing i with
  | zero => simp [chunkTotal]
  | succ k ih =>
    unfold chunkTotal
    rw [ih (i + 1), Nat.succ_mul]
    by_cases h : i < remainder <;> simp [h] <;> omega

theorem makeChunks_flatten (chunkSize remainder : Nat) (count i start : Nat) :
    ((makeChunks chunkSize remainder count i start).map chunkIndices).flatten =
      List.range' start (chunkTotal chunkSize remainder count i) := by
  induction count generalizing i start with
  | zero => simp [makeChunks, chunkTotal]
  | succ k ih =>
    unfold makeChunks chunkTotal
    simp only [List.map_cons, List.flatten_cons]
    rw [ih]
    simp only [chunkIndices]
    have hlen : (start + chunkSize + (if i < remainder then 1 else 0)) - start =
        chunkSize + (if i < remainder then 1 else 0) := by omega
    have hassoc : start + chunkSize + (if i < remainder then 1 else 0) =
        start + (chunkSize + (if i < remainder then 1 else 0)) := by omega
    rw [hlen, hassoc]
    have hr := List.range'_append start (chunkSize + (if i < remainder then 1 else 0))
      (chunkTotal chunkSize remainder k (i + 1)) 1
    simp only [one_mul] at hr
    rw [hr, Nat.add_comm (chunkTotal chunkSize remainder k (i + 1))]

theorem makeChunks_sizes (chunkSize remainder : Nat) (count i start : Nat) :
    (makeChunks chunkSize remainder count i start).map (fun p => p.2 - p.1) =
      (List.range count).map (fun j => chunkSize + (if i + j < remainder then 1 else 0)) := by
  induction count generalizing i start with
  | zero => simp [makeChunks]
  | succ k ih =>
    unfold makeChunks
    simp only [List.map_cons, List.range_succ_eq_map, List.map_map]
    have hhead : (start + chunkSize + (if i < remainder then 1 else 0)) - start =
        chunkSize + (if i + 0 < remainder then 1 else 0) := by
      rw [Nat.add_zero]
      omega
    refine List.cons_eq_cons.mpr ⟨hhead, ?_⟩
    rw [ih]
    apply List.map_congr_left
    intro j hj
    simp only [Function.comp_apply, Nat.succ_eq_add_one]
    have h2 : i + 1 + j = i + (j + 1) := by omega
    rw [h2]

/-- The assertions of claim C8 for an arena of totalSize elements and a
requested threadCount: the chunks enumerate [0, totalSize) exactly once in
order, there are min(threadCount, totalSize) of them, and chunk i holds
totalSize / tc + 1 extra elements exactly when i < totalSize % tc (tc the
clamped count). -/
def C8Conclusion (totalSize threadCount : Nat) : Prop :=
  ((forEachChunks totalSize threadCount).map chunkIndices).flatten = List.range totalSize ∧
  (forEachChunks totalSize threadCount).length = min threadCount totalSize ∧
  (forEachChunks totalSize threadCount).map (fun p => p.2 - p.1) =
    (List.range (min threadCount totalSize)).map
      (fun i => totalSize / min threadCount totalSize +
        (if i < totalSize % min threadCount totalSize then 1 else 0))

theorem makeChunks_length (chunkSize remainder : Nat) (count i start : Nat) :
    (makeChunks chunkSize remainder count i start).length = count := by
  induction count generalizing i start with
  | zero => rfl
  | succ k ih =>
    unfold makeChunks
    simp [ih]

/-- Claim C8: for a forEach over one type with requested threadCount > 1 and
arena size totalSize, after clamping to tc = min(threadCount, totalSize) the
index range [0, totalSize) is partitioned into tc contiguous disjoint chunks
of size totalSize / tc, the remainder totalSize % tc spread one element each
over the first chunks, and together the chunks cover every index exactly
once. -/
theorem forEach_chunks_c8 (totalSize threadCount : Nat) (ht : 1 < threadCount) :
    C8Conclusion totalSize threadCount := by
  refine ⟨?_, ?_, ?_⟩
  · unfold forEachChunks
    rw [makeChunks_flatten, chunkTotal_eq]
    by_cases hn : totalSize = 0
    · subst hn
      simp
    · have htc : 0 < min threadCount totalSize := by omega
      have hrem : totalSize % min threadCount totalSize < min threadCount totalSize :=
        Nat.mod_lt _ htc
      have hmin1 : min (totalSize % min threadCount totalSize)
          (0 + min threadCount totalSize) = totalSize % min threadCount totalSize := by
        omega
      have hmin2 : min (totalSize % min threadCount totalSize) 0 = 0 := by omega
      rw [hmin1, hmin2, Nat.sub_zero, List.range_eq_range']
      congr 1
      exact Nat.div_add_mod totalSize (min threadCount totalSize)
  · unfold forEachChunks
    exact makeChunks_length _ _ _ _ _
  · unfold forEachChunks
    rw [makeChunks_sizes]
    apply List.map_congr_left
    intro j hj
    simp

/-- Witness for forEach_chunks_c8: the spec's example, 10 elements over 4
threads. -/
theorem forEach_chunks_c8_witness : 1 < 4 ∧ C8Conclusion 10 4 :=
  ⟨by decide, forEach_chunks_c8 10 4 (by decide)⟩

end Chunk

namespace ET

/-- Entity-table state for claim C3: the dense entity vector restricted to
its guid field (the claim's operation sequences are addEntity/removeEntity
only, so the per-entity component maps stay empty and the component-removal
loop inside removeEntity is a no-op; it never touches guids or the identity
index anyway), the identity index entitiesMap (std::unordered_map modelled
as a function), and the restriction flag both operations check first. -/
structure St where
  entities : List Nat
  emap : Nat → Option Nat
  restricted : Bool

/-- std::unordered_map operator[] assignment: point k at v, keep the rest. -/
def mapInsert (m : Nat → Option Nat) (k v : Nat) : Nat → Option Nat :=
  fun x => if x = k then some v else m x

/-- std::unordered_map erase. -/
def mapErase (m : Nat → Option Nat) (k : Nat) : Nat → Option Nat :=
  fun x => if x = k then none else m x

/-- ECS::ECS() (bearBonesECS.hpp:284-287): empty table, empty index. -/
def initial : St := ⟨[], fun _ => none, false⟩

/-- ECS::addEntity(EntityGUID&) (bearBonesECS.hpp:359-373).  guidArg is the
caller's guid value; when it is 0 the freshly generated random guid `gen` is
used instead (generateGUID, line 363).  A restricted context and a guid
already present in the index are warning no-ops; otherwise push a record and
point the guid at the new dense index entities.size() - 1. -/
def addEntity (st : St) (guidArg gen : Nat) : St :=
  if st.restricted then st
  else
    let g := if guidArg = 0 then gen else guidArg
    if (st.emap g).isSome then st
    else { st with entities := st.entities ++ [g],
                   emap := mapInsert st.emap g st.entities.length }

/-- ECS::removeEntity(EntityID) (bearBonesECS.hpp:380-403) at the
entity-table level: restricted contexts and out-of-range ids are warning
no-ops; otherwise overwrite slot id with the last record, point the guid now
sitting at slot id (the moved one) at id, erase the removed guid, pop the
back (modelled as set + take (n-1)). -/
def removeEntity (st : St) (id : Nat) : St :=
  if st.restricted then st
  else if st.entities.length ≤ id then st
  else
    let g := (st.entities[id]?).getD 0
    let lastG := (st.entities[st.entities.length - 1]?).getD 0
    { st with entities := (st.entities.set id lastG).take (st.entities.length - 1),
              emap := mapErase (mapInsert st.emap lastG id) g }

inductive EOp where
  | add (guidArg gen : Nat)
  | remove (id : Nat)

def estep (st : St) : EOp → St
  | .add guidArg gen => addEntity st guidArg gen
  | .remove id => removeEntity st id

/-- A finite sequence of addEntity/removeEntity operations from an empty ECS. -/
def erun (ops : List EOp) : St := ops.foldl estep initial

/-- Claim C3's exactness property: the identity index and the live entity
records are mutually inverse — every indexed identity resolves to a live
record storing that identity, and every live record's identity resolves back
to its dense index. -/
def IndexExact (st : St) : Prop :=
  (∀ g i, st.emap g = some i → st.entities[i]? = some g) ∧
  (∀ i g, st.entities[i]? = some g → st.emap g = some i)

theorem indexExact_add {st : St} (h : IndexExact st) (guidArg gen : Nat) :
    IndexExact (addEntity st guidArg gen) := by
  obtain ⟨h1, h2⟩ := h
  unfold addEntity
  by_cases hr : st.restricted = true
  · rw [if_pos hr]
    exact ⟨h1, h2⟩
  rw [if_neg hr]
  simp only []
  set g := if guidArg = 0 then gen else guidArg with hg
  by_cases hcol : (st.emap g).isSome = true
  · rw [if_pos hcol]
    exact ⟨h1, h2⟩
  rw [if_neg hcol]
  have hnone : st.emap g = none := by
    cases hst : st.emap g with
    | none => rfl
    | some v => rw [hst] at hcol; exact absurd rfl hcol
  constructor
  · intro g' i hgi
    simp only [mapInsert] at hgi
    by_cases hgg : g' = g
    · rw [if_pos hgg] at hgi
      injection hgi with hi
      rw [hgg, ← hi]
      exact List.getElem?_concat_length st.entities g
    · rw [if_neg hgg] at hgi
      have hget := h1 g' i hgi
      have hlt : i < st.entities.length := (List.getElem?_eq_some.mp hget).1
      show (st.entities ++ [g])[i]? = some g'
      rw [List.getElem?_append, if_pos (by omega)]
      exact hget
  · intro i g' hget0
    have hget : (st.entities ++ [g])[i]? = some g' := hget0
    show mapInsert st.emap g st.entities.length g' = some i
    simp only [mapInsert]
    rcases Nat.lt_trichotomy i st.entities.length with hlt | heq | hgt
    · rw [List.getElem?_append, if_pos (by omega)] at hget
      have hm := h2 i g' hget
      have hgg : g' ≠ g := by
        intro hc
        rw [hc, hnone] at hm
        exact Option.noConfusion hm
      rw [if_neg hgg]
      exact hm
    · rw [List.getElem?_append, if_neg (by omega), heq, Nat.sub_self] at hget
      simp only [List.getElem?_cons_zero] at hget
      injection hget with hgv
      rw [if_pos hgv.symm, heq]
    · have hlen : (st.entities ++ [g]).length ≤ i := by simp; omega
      rw [List.getElem?_eq_none hlen] at hget
      exact Option.noConfusion hget

theorem indexExact_remove {st : St} (h : IndexExact st) (id : Nat) :
    IndexExact (removeEntity st id) := by
  obtain ⟨h1, h2⟩ := h
  unfold removeEntity
  by_cases hr : st.restricted = true
  · rw [if_pos hr]
    exact ⟨h1, h2⟩
  rw [if_neg hr]
  by_cases hid : st.entities.length ≤ id
  · rw [if_pos hid]
    exact ⟨h1, h2⟩
  rw [if_neg hid]
  simp only []
  have hn : 0 < st.entities.length := by omega
  have hidlt : id < st.entities.length := by omega
  obtain ⟨g, hgget⟩ : ∃ g, st.entities[id]? = some g :=
    ⟨st.entities.get ⟨id, hidlt⟩, (List.getElem?_eq_some).mpr ⟨hidlt, rfl⟩⟩
  obtain ⟨lastG, hlget⟩ : ∃ lg, st.entities[st.entities.length - 1]? = some lg :=
    ⟨st.entities.get ⟨st.entities.length - 1, by omega⟩,
      (List.getElem?_eq_some).mpr ⟨by omega, rfl⟩⟩
  rw [hgget, hlget]
  simp only [Option.getD_some]
  have hmg : st.emap g = some id := h2 id g hgget
  have hml : st.emap lastG = some (st.entities.length - 1) :=
    h2 (st.entities.length - 1) lastG hlget
  constructor
  · intro g' i hgi
    simp only [mapErase, mapInsert] at hgi
    by_cases hgg : g' = g
    · rw [if_pos hgg] at hgi
      exact Option.noConfusion hgi
    rw [if_neg hgg] at hgi
    by_cases hgl : g' = lastG
    · rw [if_pos hgl] at hgi
      injection hgi with hi
      have hidne : id ≠ st.entities.length - 1 := by
        intro hc
        apply hgg
        rw [hgl]
        have : st.entities[id]? = st.entities[st.entities.length - 1]? := by rw [hc]
        rw [hgget, hlget] at this
        exact (Option.some_inj.mp this).symm
      rw [← hi, List.getElem?_take, if_pos (by omega), List.getElem?_set,
        if_pos rfl, if_pos hidlt, hgl]
    · rw [if_neg hgl] at hgi
      have hget' := h1 g' i hgi
      have hlt : i < st.entities.length := (List.getElem?_eq_some.mp hget').1
      have hine : i ≠ id := by
        intro hc
        rw [hc, hgget] at hget'
        exact hgg (Option.some_inj.mp hget').symm
      have hinl : i ≠ st.entities.length - 1 := by
        intro hc
        rw [hc, hlget] at hget'
        exact hgl (Option.some_inj.mp hget').symm
      rw [List.getElem?_take, if_pos (by omega), List.getElem?_set,
        if_neg (by omega)]
      exact hget'
  · intro i g' hget'
    rw [List.getElem?_take] at hget'
    by_cases hi : i < st.entities.length - 1
    · rw [if_pos hi, List.getElem?_set] at hget'
      simp only [mapErase, mapInsert]
      by_cases hii : id = i
      · rw [if_pos hii, if_pos hidlt] at hget'
        injection hget' with hgv
        have hgl : g' = lastG := hgv.symm
        have hgne : g' ≠ g := by
          intro hc
          have : st.emap g' = some id := hc ▸ hmg
          rw [hgl, hml] at this
          have := Option.some_inj.mp this
          omega
        rw [if_neg hgne, if_pos hgl, hii]
      · rw [if_neg hii] at hget'
        have hm := h2 i g' hget'
        have hgne : g' ≠ g := by
          intro hc
          rw [hc, hmg] at hm
          exact hii (Option.some_inj.mp hm)
        have hgnl : g' ≠ lastG := by
          intro hc
          rw [hc, hml] at hm
          have := Option.some_inj.mp hm
          omega
        rw [if_neg hgne, if_neg hgnl]
        exact hm
    · rw [if_neg hi] at hget'
      exact Option.noConfusion hget'

/-- Claim C3: after every finite sequence of addEntity/removeEntity
operations starting from an empty ECS, the identity→handle index is exactly
the set of live entities: each indexed identity resolves to the live record
storing it, and each live record's identity resolves back to its dense
index. -/
theorem entity_index_exact_c3 (ops : List EOp) : IndexExact (erun ops) := by
  unfold erun
  have hinit : IndexExact initial := by
    constructor
    · intro g i hgi
      exact Option.noConfusion hgi
    · intro i g hget
      simp [initial] at hget
  generalize initial = st at hinit ⊢
  induction ops generalizing st with
  | nil => exact hinit
  | cons op rest ih =>
    cases op with
    | add guidArg gen => exact ih _ (indexExact_add hinit guidArg gen)
    | remove id => exact ih _ (indexExact_remove hinit id)

end ET

/-- Association-list value update at an existing key, modelling assignment
through std::unordered_map::at / operator[] on a present key: the entry keeps
its position. -/
def assocUpdate {α : Type} (l : List (Nat × α)) (k : Nat) (v : α) : List (Nat × α) :=
  l.map fun p => if p.1 = k then (k, v) else p

/-- Association-list erase, modelling std::unordered_map::erase. -/
def assocErase {α : Type} (l : List (Nat × α)) (k : Nat) : List (Nat × α) :=
  l.filter fun p => !(p.1 == k)

namespace AddC

/-- The per-type fields of ECS::ComponentType read or written by
addComponent<T> (bearBonesECS.hpp:99-120): the arena's live
(payload, owner) slots, the size/capacity bookkeeping and the three flags. -/
structure TypeMeta where
  slots : List (Nat × Nat)
  size : Nat
  capacity : Nat
  isLocked : Bool
  isReadOnly : Bool
  isSingular : Bool
deriving DecidableEq

/-- ECS state around addComponent<T>: per-entity componentIDs maps, the type
registry, and the restriction flag. -/
structure St where
  entities : List (List (Nat × Nat))
  types : List (Nat × TypeMeta)
  restricted : Bool
deriving DecidableEq

inductive AddErr where
  | restricted
  | unknownEntity
  | unknownType
  | singularViolation
  | typeLocked
  | alreadyHasComponent
deriving DecidableEq

/-- addComponent<T>(EntityID, Args&&...) (bearBonesECS.hpp:536-572): the six
guard checks in source order (lines 540, 542, 545, 549, 552, 554), then
grow-if-full (557-559), placement-new of (payload, owner) into slot `size`
(561-562), mapping update (564) and size increment (565).  The add-hook
dispatch (567-569) is outside claim C5 and omitted.  Every warning return
leaves the state unchanged. -/
def addComponent (st : St) (entityID tid payload : Nat) : Option AddErr × St :=
  if st.restricted then (some .restricted, st)
  else if st.entities.length ≤ entityID then (some .unknownEntity, st)
  else
    match assocLookup st.types tid with
    | none => (some .unknownType, st)
    | some meta =>
      if meta.isSingular && decide (0 < meta.size) then (some .singularViolation, st)
      else if meta.isLocked then (some .typeLocked, st)
      else if (assocLookup ((st.entities[entityID]?).getD []) tid).isSome then
        (some .alreadyHasComponent, st)
      else
        let meta1 := if meta.capacity ≤ meta.size
          then { meta with capacity := Arena.growCapacity meta.capacity } else meta
        let meta2 := { meta1 with slots := meta1.slots ++ [(payload, entityID)],
                                  size := meta1.size + 1 }
        let ents := st.entities.set entityID
          (((st.entities[entityID]?).getD []) ++ [(tid, meta1.size)])
        (none, { st with entities := ents, types := assocUpdate st.types tid meta2 })

/-- The failure order exactly as claim C5 states it (Restricted,
UnknownEntity, UnknownType, TypeLocked, AlreadyHasComponent,
SingularViolation) — written from the spec's words, to be compared with the
source-order model addComponent. -/
def specC5FirstError (st : St) (entityID tid : Nat) : Option AddErr :=
  if st.restricted then some .restricted
  else if st.entities.length ≤ entityID then some .unknownEntity
  else
    match assocLookup st.types tid with
    | none => some .unknownType
    | some meta =>
      if meta.isLocked then some .typeLocked
      else if (assocLookup ((st.entities[entityID]?).getD []) tid).isSome then
        some .alreadyHasComponent
      else if meta.isSingular && decide (0 < meta.size) then some .singularViolation
      else none

/-- A state where type 7 is locked and singular with one live instance owned
by entity 0, and entity 1 does not own it: the singular and locked failure
conditions hold at once. -/
def c5State : St :=
  ⟨[[(7, 0)], []], [(7, ⟨[(100, 0)], 1, 1, true, false, true⟩)], false⟩

/-- Counterexample to claim C5 as stated: when the singular violation and the
lock both hold, the source (check order lines 549 then 552) reports
SingularViolation, while the claim's order reports TypeLocked. -/
theorem addComponent_order_c5_counterexample :
    (addComponent c5State 1 7 42).1 = some AddErr.singularViolation ∧
    specC5FirstError c5State 1 7 = some AddErr.typeLocked ∧
    AddErr.singularViolation ≠ AddErr.typeLocked := by
  refine ⟨by decide, by decide, by decide⟩

def condRestricted (st : St) : Bool := st.restricted

def condUnknownEntity (st : St) (entityID : Nat) : Bool :=
  decide (st.entities.length ≤ entityID)

def condUnknownType (st : St) (tid : Nat) : Bool := (assocLookup st.types tid).isNone

def condSingularViolation (st : St) (tid : Nat) : Bool :=
  match assocLookup st.types tid with
  | none => false
  | some meta => meta.isSingular && decide (0 < meta.size)

def condTypeLocked (st : St) (tid : Nat) : Bool :=
  match assocLookup st.types tid with
  | none => false
  | some meta => meta.isLocked

def condAlreadyHas (st : St) (entityID tid : Nat) : Bool :=
  (assocLookup ((st.entities[entityID]?).getD []) tid).isSome

/-- First failing condition of an ordered check list. -/
def firstFailing : List (Bool × AddErr) → Option AddErr
  | [] => none
  | (b, e) :: rest => if b then some e else firstFailing rest

/-- Amended claim C5: the failure conditions of addComponent are checked in
the order Restricted, UnknownEntity, UnknownType, SingularViolation,
TypeLocked, AlreadyHasComponent (SingularViolation moved before TypeLocked
and AlreadyHasComponent, as the counterexample forces); when several hold the
earliest in that order is reported, and on any failure the operation is a
no-op. -/
theorem addComponent_order_c5_amended (st : St) (entityID tid payload : Nat) :
    (addComponent st entityID tid payload).1 =
      firstFailing
        [(condRestricted st, .restricted),
         (condUnknownEntity st entityID, .unknownEntity),
         (condUnknownType st tid, .unknownType),
         (condSingularViolation st tid, .singularViolation),
         (condTypeLocked st tid, .typeLocked),
         (condAlreadyHas st entityID tid, .alreadyHasComponent)] ∧
    ((addComponent st entityID tid payload).1.isSome →
      (addComponent st entityID tid payload).2 = st) := by
  unfold addComponent condRestricted condUnknownEntity condUnknownType
    condSingularViolation condTypeLocked condAlreadyHas
  by_cases h1 : st.restricted = true
  · simp [firstFailing, h1]
  by_cases h2 : st.entities.length ≤ entityID
  · simp [firstFailing, h1, h2]
  cases hT : assocLookup st.types tid with
  | none => simp [firstFailing, h1, h2, hT]
  | some meta =>
    by_cases h3 : (meta.isSingular && decide (0 < meta.size)) = true
    · simp [firstFailing, h1, h2, hT, h3]
    by_cases h4 : meta.isLocked = true
    · simp [firstFailing, h1, h2, hT, h3, h4]
    by_cases h5 : (assocLookup ((st.entities[entityID]?).getD []) tid).isSome = true
    · simp [firstFailing, h1, h2, hT, h3, h4, h5]
    · simp [firstFailing, h1, h2, hT, h3, h4, h5]

end AddC

namespace RC

/-- One Component<T> slot of a typed arena (bearBonesECS.hpp:86-90): abstract
payload bytes, a flag recording whether ~T() has been run on the location's
current payload, and the owner entity. -/
structure Slot where
  data : Nat
  destructed : Bool
  owner : Nat
deriving DecidableEq

/-- State around removeComponent<T> for one registered type
(bearBonesECS.hpp:598-640): per-entity componentIDs maps, the type's arena
restricted to its live slots, its lock flag, the context restriction flag,
and whether a remove-hook is registered for the type.  Capacity bookkeeping
is covered by the Arena model; refitComponentTypeStorage relocates the first
`size` slots byte-for-byte (line 1330), so a possible shrink does not change
the slot values modelled here. -/
structure St where
  entities : List (List (Nat × Nat))
  arena : List Slot
  locked : Bool
  restricted : Bool
  hookRegistered : Bool
deriving DecidableEq

/-- Events observable during one removeComponent call, in order. -/
inductive Ev where
  | hookCall (entityID : Nat) (stillAttached : Bool)
  | destructorRun (slotIdx : Nat)
deriving DecidableEq

/-- In-place modification of one entity's componentIDs map. -/
def modifyEntity (es : List (List (Nat × Nat))) (i : Nat)
    (f : List (Nat × Nat) → List (Nat × Nat)) : List (List (Nat × Nat)) :=
  match es[i]? with
  | none => es
  | some e => es.set i (f e)

/-- removeComponent<T>(EntityID) (bearBonesECS.hpp:598-640) for the modelled
type `tid`, returning the new state and the ordered observable events.  The
guards (restricted 602, entity range 604, owns 611, locked 617) are warning
no-ops; the registered type check (606) always passes here since the state
models one registered type.  On success: the remove-hook runs first (619-621,
component still attached), the destructor line 625 `componentStorage->data.~T()`
runs on slot 0 of the arena — the unsubscripted base pointer — then the last
owner's mapping entry is pointed at componentID (627-628), the last slot is
copied over slot componentID and the size decremented (630-631), and the
removed entity's mapping entry is erased (637).  The hook body is user code
whose own effects are outside this claim. -/
def removeComponent (st : St) (tid entityID : Nat) : St × List Ev :=
  if st.restricted then (st, [])
  else if st.entities.length ≤ entityID then (st, [])
  else
    match assocLookup ((st.entities[entityID]?).getD []) tid with
    | none => (st, [])
    | some componentID =>
      if st.locked then (st, [])
      else
        let evs := (if st.hookRegistered then
            [Ev.hookCall entityID
              (assocLookup ((st.entities[entityID]?).getD []) tid).isSome]
          else []) ++ [Ev.destructorRun 0]
        let arena1 :=
          match st.arena with
          | [] => []
          | s0 :: rest => { s0 with destructed := true } :: rest
        let size := arena1.length
        let lastSlot := (arena1[size - 1]?).getD ⟨0, false, 0⟩
        let ents1 := modifyEntity st.entities lastSlot.owner
          (fun comps => assocUpdate comps tid componentID)
        let arena2 := (arena1.set componentID lastSlot).take (size - 1)
        let ents2 := modifyEntity ents1 entityID (fun comps => assocErase comps tid)
        ({ st with entities := ents2, arena := arena2 }, evs)

/-- Two live components of type 7: slot 0 owned by entity 0 (payload 100),
slot 1 owned by entity 1 (payload 200). -/
def c2State : St :=
  ⟨[[(7, 0)], [(7, 1)]], [⟨100, false, 0⟩, ⟨200, false, 1⟩], false, false, false⟩

/-- Claim C2 is right and the code wrong (code_bug): removing entity 1's
component, which lives in slot 1, must run the destructor on the payload at
slot 1 and no other slot; the source's `componentStorage->data.~T()`
(line 625) dereferences the unsubscripted base pointer, so the destructor
runs on slot 0 and after the swap-pop the remaining live slot — entity 0's
component — is left with a destructed payload while slot 1's payload was
never destructed. -/
theorem removeComponent_destroys_slot_zero_c2 :
    (removeComponent c2State 7 1).2 = [Ev.destructorRun 0] ∧
    (removeComponent c2State 7 1).1.arena = [⟨100, true, 0⟩] ∧
    Ev.destructorRun 0 ≠ Ev.destructorRun 1 := by
  refine ⟨by decide, by decide, by decide⟩

end RC

namespace GetC

/-- The two flags of ECS::ComponentType read by the get-path. -/
structure TypeMeta where
  isReadOnly : Bool
  isLocked : Bool
deriving DecidableEq

/-- ECS state around the direct-payload get-path: per-entity componentIDs
maps and the type registry flags. -/
structure St where
  entities : List (List (Nat × Nat))
  types : List (Nat × TypeMeta)
deriving DecidableEq

/-- How a call to getComponent(EntityID, ComponentTypeID) ends. -/
inductive Outcome where
  | fatalUnknownEntity
  | fatalUnknownType
  | fatalNotOwned
  | fatalReadOnly
  | fatalTypeLocked
  | atThrow
  | ok (componentID : Nat)
deriving DecidableEq

/-- getComponent(EntityID, ComponentTypeID) (bearBonesECS.hpp:679-699).
The errorIf guards log and abort the process (errorIf, lines 1394-1402).
The entity guard at line 680 tests `entityId.id > entities->size()` —
strict, unlike the >= used at lines 499, 577 and 707 — so an id equal to
size passes it; the subsequent `(*entities).at(entityId.id)` at line 687
then raises std::out_of_range (modelled as the distinct outcome atThrow:
the process still dies, but not through the logged errorIf abort). -/
def getComponent (st : St) (entityID tid : Nat) : Outcome :=
  if st.entities.length < entityID then .fatalUnknownEntity
  else
    match assocLookup st.types tid with
    | none => .fatalUnknownType
    | some meta =>
      if st.entities.length ≤ entityID then .atThrow
      else
        match assocLookup ((st.entities[entityID]?).getD []) tid with
        | none => .fatalNotOwned
        | some componentID =>
          if meta.isReadOnly then .fatalReadOnly
          else if meta.isLocked then .fatalTypeLocked
          else .ok componentID

/-- The outcomes that terminate through the logged errorIf abort. -/
def isLoggedFatal : Outcome → Bool
  | .fatalUnknownEntity => true
  | .fatalUnknownType => true
  | .fatalNotOwned => true
  | .fatalReadOnly => true
  | .fatalTypeLocked => true
  | .atThrow => false
  | .ok _ => false

/-- An ECS with one registered type (id 5, unlocked, read-write) and an empty
entity table. -/
def c9State : St := ⟨[], [(5, ⟨false, false⟩)]⟩

/-- Claim C9 is right and the code wrong (code_bug): for a dense index equal
to the current entity count (here 0, on an empty table) the claim requires
the logged fatal abort; the off-by-one guard `entityId.id > entities->size()`
lets that index through, and vector::at then terminates the process by an
unhandled std::out_of_range with no ECS ERROR log.  A strictly larger index
still takes the logged UnknownEntity path. -/
theorem getComponent_offbyone_c9 :
    getComponent c9State 0 5 = Outcome.atThrow ∧
    isLoggedFatal (getComponent c9State 0 5) = false ∧
    getComponent c9State 1 5 = Outcome.fatalUnknownEntity := by
  refine ⟨by decide, by decide, by decide⟩

end GetC

namespace Split

/-- The ECS::ComponentType flags read and written by split and killChildren. -/
structure TypeMeta where
  isLocked : Bool
  isReadOnly : Bool
deriving DecidableEq

/-- A scheduler-level view of one ECS context: the type-registry flags, the
restriction flag, and the live children (each child recorded as the
componentTypes copy it was constructed with; the shared entity table and
storage play no part in claim C6). -/
structure Ctx where
  types : List (Nat × TypeMeta)
  restricted : Bool
  children : List (List (Nat × TypeMeta))
deriving DecidableEq

/-- The first loop of ECS::split (bearBonesECS.hpp:314-324): build the
child's componentTypes from the requested type list; a missing or already
locked type is a warning early-return (none), discarding the partial map. -/
def buildChildTypes (types : List (Nat × TypeMeta)) : List Nat → Option (List (Nat × TypeMeta))
  | [] => some []
  | tid :: rest =>
    match assocLookup types tid with
    | none => none
    | some meta =>
      if meta.isLocked then none
      else
        match buildChildTypes types rest with
        | none => none
        | some tail => some ((tid, meta) :: tail)

/-- std::unordered_map insert-or-assign, used for newComponentTypes[id]. -/
def assocInsert {α : Type} (l : List (Nat × α)) (k : Nat) (v : α) : List (Nat × α) :=
  if (assocLookup l k).isSome then assocUpdate l k v else l ++ [(k, v)]

/-- The second loop of ECS::split (326-330): share every read-only type with
the child as well. -/
def addReadOnlyTypes (child : List (Nat × TypeMeta))
    (types : List (Nat × TypeMeta)) : List (Nat × TypeMeta) :=
  types.foldl (fun acc p => if p.2.isReadOnly then assocInsert acc p.1 p.2 else acc) child

/-- `componentTypes.at(tid).isLocked = true` (333-334). -/
def setLocked (types : List (Nat × TypeMeta)) (tid : Nat) : List (Nat × TypeMeta) :=
  types.map fun p => if p.1 = tid then (p.1, { p.2 with isLocked := true }) else p

/-- The third loop of ECS::split (332-335): lock every requested type on the
parent. -/
def lockTypes (types : List (Nat × TypeMeta)) (toLock : List Nat) : List (Nat × TypeMeta) :=
  toLock.foldl setLocked types

/-- ECS::split(vector<ComponentTypeID>) (311-340): a missing or locked
requested type makes the split a warning no-op returning the parent
unchanged; otherwise the child receives the copied requested entries plus
every read-only entry, the requested types are locked on the parent, the
parent is restricted (restrict(), 337) and the child is appended to
children (338). -/
def split (ctx : Ctx) (toLock : List Nat) : Ctx :=
  match buildChildTypes ctx.types toLock with
  | none => ctx
  | some base =>
    { types := lockTypes ctx.types toLock,
      restricted := true,
      children := ctx.children ++ [addReadOnlyTypes base ctx.types] }

/-- ECS::killChildren (342-351): clear the children, unlock every type,
unrestrict the parent. -/
def killChildren (ctx : Ctx) : Ctx :=
  { types := ctx.types.map fun p => (p.1, { p.2 with isLocked := false }),
    restricted := false,
    children := [] }

/-- The split loop of one stage of ECS::runSystemBatch (1259-1261): every
system of the stage — also in a stage holding exactly one system — gets its
own split. -/
def stageSplitPhase (ctx : Ctx) (stage : List (List Nat)) : Ctx :=
  stage.foldl split ctx

/-- One stage of ECS::runSystemBatch (1253-1278): the split loop, then the
threaded system callbacks (user code with no effect on the scheduler state
modelled here), the join, then killChildren. -/
def runStage (ctx : Ctx) (stage : List (List Nat)) : Ctx :=
  killChildren (stageSplitPhase ctx stage)

/-- ECS::runSystemBatch (1247-1281): the stages run strictly in order. -/
def runSystemBatch (ctx : Ctx) (batch : List (List (List Nat))) : Ctx :=
  batch.foldl runStage ctx

/-- The ids of the currently locked types of a context. -/
def lockedIDs (ctx : Ctx) : List Nat :=
  (ctx.types.filter fun p => p.2.isLocked).map Prod.fst

/-- A root context with one registered type (id 0), unlocked and open. -/
def c6Ctx : Ctx := ⟨[(0, ⟨false, false⟩)], false, []⟩

/-- Counterexample to claim C6 as stated: running a stage that holds exactly
one system (declared footprint [0]) does perform a split — after the split
loop of the stage, the parent is Restricted, type 0 is locked, and a child
context exists — whereas the claim says a single-system stage is run
directly with no child created, no type locked and no restriction. -/
theorem single_stage_split_c6_counterexample :
    ¬ ((stageSplitPhase c6Ctx [[0]]).children = [] ∧
       (stageSplitPhase c6Ctx [[0]]).restricted = false ∧
       lockedIDs (stageSplitPhase c6Ctx [[0]]) = []) := by
  decide

theorem assocLookup_setLocked (ts : List (Nat × TypeMeta)) (tid t : Nat) :
    assocLookup (setLocked ts tid) t =
      if t = tid then (assocLookup ts t).map (fun m => { m with isLocked := true })
      else assocLookup ts t := by
  induction ts with
  | nil => by_cases h : t = tid <;> simp [setLocked, assocLookup, h]
  | cons p rest ih =>
    by_cases hp : p.1 = tid
    · by_cases hpt : p.1 = t
      · have ht : t = tid := by rw [← hpt, hp]
        simp [setLocked, assocLookup, hp, hpt, ht]
      · have ht : ¬t = tid := fun hc => hpt (hp.trans hc.symm)
        simp only [setLocked, List.map_cons, if_pos hp] at ih ⊢
        simp [assocLookup, hpt, ht, ih]
    · by_cases hpt : p.1 = t
      · have ht : ¬t = tid := fun hc => hp (hpt.trans hc)
        simp [setLocked, assocLookup, hp, hpt, ht]
      · simp only [setLocked, List.map_cons, if_neg hp] at ih ⊢
        simp [assocLookup, hpt, ih]

theorem assocLookup_lockTypes (toLock : List Nat) (ts : List (Nat × TypeMeta)) (t : Nat) :
    assocLookup (lockTypes ts toLock) t =
      if t ∈ toLock then (assocLookup ts t).map (fun m => { m with isLocked := true })
      else assocLookup ts t := by
  induction toLock generalizing ts with
  | nil => simp [lockTypes]
  | cons tid rest ih =>
    unfold lockTypes at ih ⊢
    simp only [List.foldl_cons]
    rw [ih (setLocked ts tid)]
    simp only [assocLookup_setLocked]
    by_cases hmem : t ∈ rest
    · rw [if_pos hmem, if_pos (List.mem_cons.mpr (Or.inr hmem))]
      by_cases ht : t = tid
      · rw [if_pos ht]
        cases assocLookup ts t <;> simp
      · rw [if_neg ht]
    · by_cases ht : t = tid
      · rw [if_neg hmem, if_pos ht, if_pos (List.mem_cons.mpr (Or.inl ht))]
      · rw [if_neg hmem, if_neg ht, if_neg (by simp [List.mem_cons, ht, hmem])]

theorem buildChildTypes_mem {types : List (Nat × TypeMeta)} {toLock : List Nat}
    {base : List (Nat × TypeMeta)} (h : buildChildTypes types toLock = some base) :
    ∀ tid ∈ toLock, ∃ m, assocLookup types tid = some m := by
  induction toLock generalizing base with
  | nil => simp
  | cons t rest ih =>
    unfold buildChildTypes at h
    split at h
    · exact Option.noConfusion h
    · rename_i m hT
      split at h
      · exact Option.noConfusion h
      · split at h
        · exact Option.noConfusion h
        · rename_i tail hR
          intro tid hmem
          rcases List.mem_cons.mp hmem with h1 | h2
          · exact ⟨m, h1 ▸ hT⟩
          · exact ih hR tid h2

theorem lockedIDs_killChildren (ctx : Ctx) : lockedIDs (killChildren ctx) = [] := by
  unfold lockedIDs killChildren
  simp only []
  induction ctx.types with
  | nil => rfl
  | cons p rest ih => simpa [List.filter] using ih

/-- The amended claim C6 for one single-system stage. -/
def C6Amended (ctx : Ctx) (sys : List Nat) : Prop :=
  (stageSplitPhase ctx [sys]).restricted = true ∧
  (stageSplitPhase ctx [sys]).children.length = ctx.children.length + 1 ∧
  (∀ tid ∈ sys, ∃ m, assocLookup (stageSplitPhase ctx [sys]).types tid = some m ∧
    m.isLocked = true) ∧
  (runStage ctx [sys]).restricted = false ∧
  (runStage ctx [sys]).children = [] ∧
  lockedIDs (runStage ctx [sys]) = []

/-- Amended claim C6: a stage with exactly one system is executed like every
other stage — its system's split succeeds when its declared types exist and
are unlocked, after which a child context exists, every declared type is
locked on the parent and the parent is Restricted; the callback then runs
against the split child, and killChildren closes the stage leaving the
parent unrestricted, childless and fully unlocked. -/
theorem single_stage_split_c6_amended (ctx : Ctx) (sys : List Nat)
    (h : (buildChildTypes ctx.types sys).isSome = true) : C6Amended ctx sys := by
  cases hb : buildChildTypes ctx.types sys with
  | none => rw [hb] at h; exact absurd h (by simp)
  | some base =>
    have hsplit : stageSplitPhase ctx [sys] = split ctx sys := by
      simp [stageSplitPhase]
    have hexp : split ctx sys =
        { types := lockTypes ctx.types sys, restricted := true,
          children := ctx.children ++ [addReadOnlyTypes base ctx.types] } := by
      unfold split
      rw [hb]
    refine ⟨?_, ?_, ?_, ?_, ?_, ?_⟩
    · rw [hsplit, hexp]
    · rw [hsplit, hexp]
      simp
    · intro tid hmem
      obtain ⟨m, hm⟩ := buildChildTypes_mem hb tid hmem
      refine ⟨{ m with isLocked := true }, ?_, rfl⟩
      rw [hsplit, hexp]
      simp only []
      rw [assocLookup_lockTypes, if_pos hmem, hm]
      rfl
    · rfl
    · rfl
    · exact lockedIDs_killChildren _

/-- Witness for single_stage_split_c6_amended at the concrete context c6Ctx
and the single system [0]. -/
theorem single_stage_split_c6_witness :
    (buildChildTypes c6Ctx.types [0]).isSome = true ∧ C6Amended c6Ctx [0] :=
  ⟨by decide, single_stage_split_c6_amended c6Ctx [0] (by decide)⟩

end Split

namespace Fam

/-- One ECS::ComponentType entry as the Type Registry stores it by value
(bearBonesECS.hpp:99-120): the storage pointer (a heap buffer id here), the
size/capacity bookkeeping and the three flags. -/
structure TypeEntry where
  storage : Nat
  size : Nat
  capacity : Nat
  isLocked : Bool
  isReadOnly : Bool
  isSingular : Bool
deriving DecidableEq

/-- The storage shared by reference between a parent and its split children:
the heap buffers addressed through the per-type storage pointers (buffer id
↦ live (payload, owner) slots) and the entity table with its componentIDs
maps.  The private constructor (289-296) copies the entitiesMap/entities
POINTERS and the componentTypes map BY VALUE, which is what this model
separates. -/
structure Shared where
  heap : Nat → List (Nat × Nat)
  nextPtr : Nat
  entities : List (List (Nat × Nat))

/-- A parent context and one split child running against the same shared
storage.  childRestricted is the child's own restriction flag: the child is
constructed restricted (line 338), and a threaded forEach run by the system
unrestricts it on join (line 975/1053), after which structural mutation
through the child proceeds. -/
structure Family where
  parentTypes : List (Nat × TypeEntry)
  childTypes : List (Nat × TypeEntry)
  childRestricted : Bool
  shared : Shared

/-- The child-registry copy made by the first loop of ECS::split (314-324):
each requested type's entry is copied by value into the child's registry; a
missing or locked type aborts the split. -/
def splitChildBase (parentTypes : List (Nat × TypeEntry)) : List Nat → Option (List (Nat × TypeEntry))
  | [] => some []
  | tid :: rest =>
    match assocLookup parentTypes tid with
    | none => none
    | some e =>
      if e.isLocked then none
      else
        match splitChildBase parentTypes rest with
        | none => none
        | some tail => some ((tid, e) :: tail)

/-- addComponent<T> (536-572) executed with `this` = the split child: every
componentTypes read and write goes through the child's own copy, the slot
write goes through the entry's storage pointer into the shared heap (with a
refitComponentTypeStorage reallocation first when full, 1326-1336: new
buffer, copy the first `size` slots, retarget the CHILD's storage pointer),
and the mapping update goes through the shared entity table.  The add-hook
dispatch is omitted as in the AddC model. -/
def childAddComponent (f : Family) (entityID tid payload : Nat) : Family :=
  if f.childRestricted then f
  else if f.shared.entities.length ≤ entityID then f
  else
    match assocLookup f.childTypes tid with
    | none => f
    | some e =>
      if e.isSingular && decide (0 < e.size) then f
      else if e.isLocked then f
      else if (assocLookup ((f.shared.entities[entityID]?).getD []) tid).isSome then f
      else
        let grow := decide (e.capacity ≤ e.size)
        let ptr := if grow then f.shared.nextPtr else e.storage
        let heap1 := if grow then
            (fun x => if x = f.shared.nextPtr
              then (f.shared.heap e.storage).take e.size else f.shared.heap x)
          else f.shared.heap
        let e1 := if grow
          then { e with storage := ptr, capacity := Arena.growCapacity e.capacity }
          else e
        let heap2 := fun x => if x = ptr
          then (heap1 ptr).take e1.size ++ [(payload, entityID)] else heap1 x
        let ents := f.shared.entities.set entityID
          (((f.shared.entities[entityID]?).getD []) ++ [(tid, e1.size)])
        { parentTypes := f.parentTypes,
          childTypes := assocUpdate f.childTypes tid { e1 with size := e1.size + 1 },
          childRestricted := f.childRestricted,
          shared := { heap := heap2,
                      nextPtr := if grow then f.shared.nextPtr + 1 else f.shared.nextPtr,
                      entities := ents } }

/-- removeComponent<T> (598-640) executed with `this` = the split child:
guards as in the source, then the swap-pop inside the heap buffer addressed
by the child's storage pointer, the last owner's mapping patch and the
mapping erase through the shared entity table, and a possible shrink
reallocation retargeting the child's storage pointer.  The destructor detail
is claim C2's and payload bytes are unchanged by it; hooks omitted. -/
def childRemoveComponent (f : Family) (entityID tid : Nat) : Family :=
  if f.childRestricted then f
  else if f.shared.entities.length ≤ entityID then f
  else
    match assocLookup f.childTypes tid with
    | none => f
    | some e =>
      match assocLookup ((f.shared.entities[entityID]?).getD []) tid with
      | none => f
      | some componentID =>
        if e.isLocked then f
        else
          let buf := f.shared.heap e.storage
          let lastSlot := (buf[e.size - 1]?).getD (0, 0)
          let ents1 := RC.modifyEntity f.shared.entities lastSlot.2
            (fun comps => assocUpdate comps tid componentID)
          let buf1 := (buf.set componentID lastSlot).take (e.size - 1)
          let e1 := { e with size := e.size - 1 }
          let shrink := decide (3 * e1.size < 2 * e1.capacity)
          let heap1 := fun x => if x = e.storage then buf1 else f.shared.heap x
          let e2 := if shrink
            then { e1 with storage := f.shared.nextPtr,
                           capacity := Arena.shrinkCapacity e1.capacity }
            else e1
          let heap2 := if shrink then
              (fun x => if x = f.shared.nextPtr then buf1.take e1.size else heap1 x)
            else heap1
          let ents2 := RC.modifyEntity ents1 entityID (fun comps => assocErase comps tid)
          { parentTypes := f.parentTypes,
            childTypes := assocUpdate f.childTypes tid e2,
            childRestricted := f.childRestricted,
            shared := { heap := heap2,
                        nextPtr := if shrink then f.shared.nextPtr + 1 else f.shared.nextPtr,
                        entities := ents2 } }

/-- The frame part of claim C10: component add/remove through the split child
never touches the parent's Type Registry entries — only the child's copy and
the shared heap/entity table change. -/
def C10Frame : Prop :=
  ∀ (f : Family) (entityID tid payload : Nat),
    (childAddComponent f entityID tid payload).parentTypes = f.parentTypes ∧
    (childRemoveComponent f entityID tid).parentTypes = f.parentTypes

theorem childAddComponent_parent_frame (f : Family) (entityID tid payload : Nat) :
    (childAddComponent f entityID tid payload).parentTypes = f.parentTypes := by
  unfold childAddComponent
  split
  · rfl
  split
  · rfl
  split
  · rfl
  split
  · rfl
  split
  · rfl
  split
  · rfl
  rfl

theorem childRemoveComponent_parent_frame (f : Family) (entityID tid : Nat) :
    (childRemoveComponent f entityID tid).parentTypes = f.parentTypes := by
  unfold childRemoveComponent
  split
  · rfl
  split
  · rfl
  split
  · rfl
  split
  · rfl
  split
  · rfl
  rfl

/-- Claim C10: the split child's Type Registry is a by-value copy of the
parent's entries (for every requested type the child's entry equals the
parent's entry verbatim — size, capacity, storage pointer and flags), and
component add/remove performed through the child modifies only the child's
copy and the shared heap/entity table: the parent's entries are untouched by
those operations, during the split and hence also after recombination
(killChildren does not write the parent's size/capacity/storage either, see
the Split model). -/
theorem split_by_value_c10 (parentTypes : List (Nat × TypeEntry)) (toLock : List Nat)
    (base : List (Nat × TypeEntry)) (h : splitChildBase parentTypes toLock = some base) :
    (∀ tid ∈ toLock, assocLookup base tid = assocLookup parentTypes tid) ∧ C10Frame := by
  constructor
  · induction toLock generalizing base with
    | nil => simp
    | cons t rest ih =>
      unfold splitChildBase at h
      split at h
      · exact Option.noConfusion h
      · rename_i e hT
        split at h
        · exact Option.noConfusion h
        · rename_i hL
          split at h
          · exact Option.noConfusion h
          · rename_i tail hR
            injection h with hbase
            intro tid hmem
            subst hbase
            by_cases ht : t = tid
            · subst ht
              simp [assocLookup, hT]
            · have : tid ∈ rest := by
                rcases List.mem_cons.mp hmem with h1 | h2
                · exact absurd h1.symm ht
                · exact h2
              simp only [assocLookup, if_neg (fun hc : t = tid => ht hc)]
              exact ih tail hR tid this
  · intro f entityID tid payload
    exact ⟨childAddComponent_parent_frame f entityID tid payload,
      childRemoveComponent_parent_frame f entityID tid⟩

/-- Witness for split_by_value_c10 at a concrete registry with one type. -/
theorem split_by_value_c10_witness :
    splitChildBase [(3, ⟨0, 0, 4, false, false, false⟩)] [3] =
      some [(3, ⟨0, 0, 4, false, false, false⟩)] ∧
    ((∀ tid ∈ [3], assocLookup [(3, (⟨0, 0, 4, false, false, false⟩ : TypeEntry))] tid =
        assocLookup [(3, ⟨0, 0, 4, false, false, false⟩)] tid) ∧ C10Frame) :=
  ⟨by decide,
    split_by_value_c10 [(3, ⟨0, 0, 4, false, false, false⟩)] [3]
      [(3, ⟨0, 0, 4, false, false, false⟩)] (by decide)⟩

end Fam

namespace RE

/-- The ECS::Entity record (bearBonesECS.hpp:92-97) fields removeEntity
touches: the stable guid and the componentIDs map (typeID ↦ slot index,
insertion ordered).  The parent/child relationship fields play no part in
removeEntity. -/
structure Ent where
  guid : Nat
  comps : List (Nat × Nat)
deriving DecidableEq

/-- State for claim C7: entity table, identity index, per-type arenas
(typeID ↦ live (payload, owner) slots) and the restriction flag.  No
remove-hooks are registered (removeComponentSystems empty) and no type is
locked: removeEntity checks restricted first, and only a split locks types
while restricting the parent. -/
structure St where
  entities : List Ent
  emap : Nat → Option Nat
  arenas : List (Nat × List (Nat × Nat))
  restricted : Bool

/-- In-place modification of one entity record. -/
def modifyEnt (es : List Ent) (i : Nat) (f : Ent → Ent) : List Ent :=
  match es[i]? with
  | none => es
  | some e => es.set i (f e)

/-- removeComponent<T> (598-640) as invoked from removeEntity's loop for
type tid on entity entityID, at the entity-table/arena level: the guards
(restricted 602, entity range 604, registered type 606-607, owns 611) are
no-ops; on success the last slot's owner's mapping entry is pointed at
componentID (627-628), the last slot is copied over the freed one and the
size decremented (630-631), and the removed entity's mapping entry is erased
(637).  The destructor slip is claim C2's concern and payload bytes are
unaffected by it; a possible shrink relocates the slots unchanged. -/
def removeComponentFor (st : St) (tid entityID : Nat) : St :=
  if st.restricted then st
  else if st.entities.length ≤ entityID then st
  else
    match assocLookup st.arenas tid with
    | none => st
    | some arena =>
      match assocLookup (((st.entities[entityID]?).getD ⟨0, []⟩).comps) tid with
      | none => st
      | some componentID =>
        let lastSlot := (arena[arena.length - 1]?).getD (0, 0)
        let ents1 := modifyEnt st.entities lastSlot.2
          (fun e => { e with comps := assocUpdate e.comps tid componentID })
        let arena1 := (arena.set componentID lastSlot).take (arena.length - 1)
        let ents2 := modifyEnt ents1 entityID
          (fun e => { e with comps := assocErase e.comps tid })
        { st with entities := ents2, arenas := assocUpdate st.arenas tid arena1 }

/-- The component types removeEntity removes and their order (384-391):
collect the typeIDs by iterating the entity's componentIDs map into a
vector, then loop i from size-1 down to 0 over it.  std::unordered_map
enumerates in an implementation-defined order that is unrelated to the
order the component TYPES were registered; the model's maps enumerate in
insertion order, i.e. the order the components were attached to this
entity. -/
def removalOrder (e : Ent) : List Nat := (e.comps.map Prod.fst).reverse

/-- The entity-table swap-pop of removeEntity with the identity-index patch
(394-398): overwrite slot entityID with the last record, point the guid now
at slot entityID (the moved record's) at entityID, erase the removed guid,
pop the back. -/
def removeEntitySwap (st1 : St) (entityID : Nat) : St :=
  { st1 with
    entities := (st1.entities.set entityID
      ((st1.entities[st1.entities.length - 1]?).getD ⟨0, []⟩)).take
        (st1.entities.length - 1),
    emap := ET.mapErase
      (ET.mapInsert st1.emap
        ((st1.entities[st1.entities.length - 1]?).getD ⟨0, []⟩).guid entityID)
      (((st1.entities[entityID]?).getD ⟨0, []⟩).guid) }

/-- ECS::removeEntity(EntityID) (380-403): the guards, the component-removal
loop, then the swap-pop with the identity-index patch.  Returns the new
state and the type ids in the order their components were removed. -/
def removeEntity (st : St) (entityID : Nat) : St × List Nat :=
  if st.restricted then (st, [])
  else if st.entities.length ≤ entityID then (st, [])
  else
    (removeEntitySwap
      ((removalOrder ((st.entities[entityID]?).getD ⟨0, []⟩)).foldl
        (fun s tid => removeComponentFor s tid entityID) st)
      entityID,
     removalOrder ((st.entities[entityID]?).getD ⟨0, []⟩))

/-- The removal order claim C7 states — the reverse of the component types'
registration order, restricted to the types this entity owns — written from
the spec's words for comparison with the source model. -/
def specC7RemovalOrder (registrationOrder : List Nat) (e : Ent) : List Nat :=
  (registrationOrder.filter fun tid => (assocLookup e.comps tid).isSome).reverse

/-- An entity owning both types, the type-20 component attached before the
type-10 one (componentIDs enumeration order [20, 10]). -/
def c7Ent : Ent := ⟨77, [(20, 0), (10, 0)]⟩

/-- Types registered in the order 10, 20; one entity, c7Ent. -/
def c7State : St :=
  ⟨[c7Ent], fun g => if g = 77 then some 0 else none,
   [(10, [(5, 0)]), (20, [(6, 0)])], false⟩

/-- Counterexample to claim C7 as stated: with component types registered in
the order 10, 20 and the entity's components attached in the order 20, 10,
removeEntity removes in the order [10, 20] — the reverse of the entity's
mapping enumeration — while the claim's reverse-of-registration order is
[20, 10]. -/
theorem removeEntity_order_c7_counterexample :
    (removeEntity c7State 0).2 = [10, 20] ∧
    specC7RemovalOrder [10, 20] c7Ent = [20, 10] ∧
    ([10, 20] : List Nat) ≠ [20, 10] := by
  refine ⟨by decide, by decide, by decide⟩

theorem modifyEnt_length (es : List Ent) (i : Nat) (f : Ent → Ent) :
    (modifyEnt es i f).length = es.length := by
  unfold modifyEnt
  split
  · rfl
  · simp [List.length_set]

theorem modifyEnt_guid (es : List Ent) (i : Nat) (f : Ent → Ent)
    (hf : ∀ e, (f e).guid = e.guid) (j : Nat) :
    ((modifyEnt es i f)[j]?).map Ent.guid = (es[j]?).map Ent.guid := by
  unfold modifyEnt
  split
  · rfl
  · rename_i e he
    rw [List.getElem?_set]
    by_cases hij : i = j
    · have hlt : i < es.length := (List.getElem?_eq_some.mp he).1
      rw [if_pos hij, if_pos hlt]
      subst hij
      rw [he]
      simp [hf]
    · rw [if_neg hij]

theorem removeComponentFor_frame (st : St) (tid entityID : Nat) :
    (removeComponentFor st tid entityID).entities.length = st.entities.length ∧
    (∀ i : Nat, ((removeComponentFor st tid entityID).entities[i]?).map Ent.guid =
      (st.entities[i]?).map Ent.guid) ∧
    (removeComponentFor st tid entityID).emap = st.emap ∧
    (removeComponentFor st tid entityID).restricted = st.restricted := by
  unfold removeComponentFor
  split
  · exact ⟨rfl, fun i => rfl, rfl, rfl⟩
  split
  · exact ⟨rfl, fun i => rfl, rfl, rfl⟩
  split
  · exact ⟨rfl, fun i => rfl, rfl, rfl⟩
  rename_i arena harena
  split
  · exact ⟨rfl, fun i => rfl, rfl, rfl⟩
  rename_i componentID hcomp
  refine ⟨?_, ?_, rfl, rfl⟩
  · simp [modifyEnt_length]
  · intro i
    simp only []
    exact (modifyEnt_guid _ entityID
        (fun e => { e with comps := assocErase e.comps tid }) (fun e => rfl) i).trans
      (modifyEnt_guid st.entities ((arena[arena.length - 1]?).getD (0, 0)).2
        (fun e => { e with comps := assocUpdate e.comps tid componentID }) (fun e => rfl) i)

theorem foldl_removeComponentFor_frame (tids : List Nat) (entityID : Nat) (st : St) :
    (tids.foldl (fun s tid => removeComponentFor s tid entityID) st).entities.length =
      st.entities.length ∧
    (∀ i : Nat, ((tids.foldl (fun s tid => removeComponentFor s tid entityID)
        st).entities[i]?).map Ent.guid = (st.entities[i]?).map Ent.guid) ∧
    (tids.foldl (fun s tid => removeComponentFor s tid entityID) st).emap = st.emap := by
  induction tids generalizing st with
  | nil => exact ⟨rfl, fun i => rfl, rfl⟩
  | cons t rest ih =>
    simp only [List.foldl_cons]
    obtain ⟨h1, h2, h3, h4⟩ := removeComponentFor_frame st t entityID
    obtain ⟨g1, g2, g3⟩ := ih (removeComponentFor st t entityID)
    exact ⟨g1.trans h1, fun i => (g2 i).trans (h2 i), g3.trans h3⟩

theorem guid_getD_eq {a b : Option Ent} (h : a.map Ent.guid = b.map Ent.guid) :
    (a.getD ⟨0, []⟩).guid = (b.getD ⟨0, []⟩).guid := by
  cases a <;> cases b <;> simp_all

/-- The amended claim C7 for one live entity. -/
def C7Amended (st : St) (entityID : Nat) : Prop :=
  (removeEntity st entityID).2 =
    (((st.entities[entityID]?).getD ⟨0, []⟩).comps.map Prod.fst).reverse ∧
  (removeEntity st entityID).1.entities.length = st.entities.length - 1 ∧
  (removeEntity st entityID).1.emap =
    ET.mapErase
      (ET.mapInsert st.emap
        (((st.entities[st.entities.length - 1]?).getD ⟨0, []⟩).guid) entityID)
      (((st.entities[entityID]?).getD ⟨0, []⟩).guid) ∧
  (entityID ≠ st.entities.length - 1 →
    (((removeEntity st entityID).1.entities[entityID]?).map Ent.guid) =
      some (((st.entities[st.entities.length - 1]?).getD ⟨0, []⟩).guid))

/-- Amended claim C7: removeEntity on a live entity removes the entity's
components in the order that is the reverse of the entity's componentIDs
enumeration order (in this model, reverse of the order the components were
attached) — NOT necessarily the reverse of the component types' registration
order — and afterwards performs the Entity Table swap-pop: the table shrinks
by one, the removed identity is erased from the index, and the identity of
the record moved into the freed slot is indexed at the freed dense index. -/
theorem removeEntity_order_c7_amended (st : St) (entityID : Nat)
    (hr : st.restricted = false) (hid : entityID < st.entities.length) :
    C7Amended st entityID := by
  have hkey : removeEntity st entityID =
      (removeEntitySwap
        ((removalOrder ((st.entities[entityID]?).getD ⟨0, []⟩)).foldl
          (fun s tid => removeComponentFor s tid entityID) st)
        entityID,
       removalOrder ((st.entities[entityID]?).getD ⟨0, []⟩)) := by
    unfold removeEntity
    rw [if_neg (by simp [hr]), if_neg (by omega)]
  obtain ⟨hL, hG, hM⟩ := foldl_removeComponentFor_frame
    (removalOrder ((st.entities[entityID]?).getD ⟨0, []⟩)) entityID st
  set st1 := (removalOrder ((st.entities[entityID]?).getD ⟨0, []⟩)).foldl
    (fun s tid => removeComponentFor s tid entityID) st with hst1
  have hgl : ((st1.entities[st1.entities.length - 1]?).getD ⟨0, []⟩).guid =
      ((st.entities[st.entities.length - 1]?).getD ⟨0, []⟩).guid := by
    rw [hL]
    exact guid_getD_eq (hG (st.entities.length - 1))
  have hge : ((st1.entities[entityID]?).getD ⟨0, []⟩).guid =
      ((st.entities[entityID]?).getD ⟨0, []⟩).guid :=
    guid_getD_eq (hG entityID)
  refine ⟨?_, ?_, ?_, ?_⟩
  · rw [hkey]
    rfl
  · rw [hkey]
    show ((st1.entities.set entityID _).take (st1.entities.length - 1)).length =
      st.entities.length - 1
    simp [List.length_take, List.length_set, hL]
  · rw [hkey]
    show ET.mapErase (ET.mapInsert st1.emap
        ((st1.entities[st1.entities.length - 1]?).getD ⟨0, []⟩).guid entityID)
      (((st1.entities[entityID]?).getD ⟨0, []⟩).guid) = _
    rw [hM, hgl, hge]
  · intro hne
    rw [hkey]
    show ((((st1.entities.set entityID
        ((st1.entities[st1.entities.length - 1]?).getD ⟨0, []⟩)).take
          (st1.entities.length - 1))[entityID]?).map Ent.guid) = _
    rw [List.getElem?_take, if_pos (by omega), List.getElem?_set, if_pos rfl,
      if_pos (by omega)]
    simp only [Option.map_some']
    rw [hgl]

/-- Witness for removeEntity_order_c7_amended at the concrete state c7State,
removing entity 0. -/
theorem removeEntity_order_c7_witness :
    c7State.restricted = false ∧ 0 < c7State.entities.length ∧ C7Amended c7State 0 :=
  ⟨by decide, by decide, removeEntity_order_c7_amended c7State 0 (by decide) (by decide)⟩

end RE

end BBECS
